import Mathlib

/-
Verification of the `refreshable.py` hot-swap engine (doitlive repository).

Shallow embedding of `src/refreshable.py`:
* `SafeRefreshMixin.__getattr__`   (lines 78-87)   -> `dunderGetattr`, `getAttr`
* `SafeRefreshMixin.init_defaults` (lines 89-92)   -> `init_defaults`
* `SafeRefreshMixin.refresh`       (lines 102-165) -> `refreshPass`, `refresh`
* `SafeRefreshMixin.revert`        (lines 167-179) -> `revert`
* `SafeRefreshMixin.purge`         (lines 181-187) -> `purge`
* `SafeRefreshableLoop.run`        (lines 238-257) -> `loopIter`, `iterLoop`

Python instance attributes (`self.__dict__`) are modelled as an association
list with dict semantics (`dlookup` / `dset`).  The bookkeeping attributes
`_refresh_history` and `_refresh_rev` are kept as separate fields of `Inst`;
they are `Option`-valued because in Python they are materialised lazily by
`__getattr__` out of `DEFAULTS` (`none` models "never materialised"), which
is observable: `purge` does `del self._refresh_history` with a dead
`except NameError` handler, so it raises `AttributeError` when the history
attribute was never created.
-/

/-- A Python value as far as the engine can observe it: a null, a number, a
string, or a callable (bound method / function), identified by a tag. -/
inductive PyVal where
  | none
  | int (n : Int)
  | str (s : String)
  | func (tag : Nat)
deriving DecidableEq, Repr

/-- Python truthiness of a `PyVal` (`if value ...`). -/
def truthy : PyVal → Bool
  | PyVal.none => false
  | PyVal.int n => n ≠ 0
  | PyVal.str s => s ≠ ""
  | PyVal.func _ => true

/-- Association list with Python-dict lookup semantics. -/
def dlookup {α : Type} : List (String × α) → String → Option α
  | [], _ => Option.none
  | (k, v) :: rest, n => if k = n then some v else dlookup rest n

/-- Association list with Python-dict assignment semantics: replace the
binding if the key is present, append it otherwise. -/
def dset {α : Type} : List (String × α) → String → α → List (String × α)
  | [], n, v => [(n, v)]
  | (k, w) :: rest, n, v => if k = n then (n, v) :: rest else (k, w) :: dset rest n v

/-- The per-instance attribute store (`self.__dict__`). -/
abbrev Attrs := List (String × PyVal)

/-- A snapshot/diff: prior values of the attributes one refresh overwrote
(the `history` dict built inside `refresh`). -/
abbrev Snap := List (String × PyVal)

/-- `for key, value in history.items(): self.__setattr__(key, value)`
(the loop at the end of `revert`, lines 177-178). -/
def applyPairs : Attrs → Snap → Attrs
  | a, [] => a
  | a, (k, v) :: rest => applyPairs (dset a k v) rest

/-- A value of the class-level `DEFAULTS` dict: either a non-callable
literal or a zero-argument producer returning `v` when called. -/
inductive DefVal where
  | lit (v : PyVal)
  | producer (v : PyVal)
deriving DecidableEq, Repr

/-- Class-level configuration: `DEFAULTS` and `AUTO_NONE`. -/
structure Config where
  defaults : List (String × DefVal)
  autoNone : Bool
deriving DecidableEq, Repr

/-- The swappable instance: attribute store plus the two lazily
materialised bookkeeping attributes (`Option.none` = never created). -/
structure Inst where
  attrs : Attrs
  history : Option (List Snap)
  rev : Option Nat
deriving DecidableEq, Repr

/-- `SafeRefreshMixin.__getattr__` (lines 78-87).  Called when normal
lookup failed.  Mirrors the source faithfully, including the slip in line
84: `if value and value.__call__` evaluates `value.__call__` on a truthy
value, which raises `AttributeError` when the default is a truthy
non-callable literal (a producer is a function, hence truthy and has
`__call__`; `DEFAULTS.get` of a missing name yields `None`, which is
falsy). -/
def dunderGetattr (cfg : Config) (attrs : Attrs) (name : String) :
    Except Unit (PyVal × Attrs) :=
  if (dlookup cfg.defaults name).isNone && !cfg.autoNone then
    Except.error ()
  else
    match dlookup cfg.defaults name with
    | Option.none => Except.ok (PyVal.none, dset attrs name PyVal.none)
    | some (DefVal.producer v) => Except.ok (v, dset attrs name v)
    | some (DefVal.lit v) =>
      if truthy v then Except.error ()
      else Except.ok (v, dset attrs name v)

/-- A full attribute read: normal lookup first, `__getattr__` on miss. -/
def getAttr (cfg : Config) (attrs : Attrs) (name : String) :
    Except Unit (PyVal × Attrs) :=
  match dlookup attrs name with
  | some v => Except.ok (v, attrs)
  | Option.none => dunderGetattr cfg attrs name

/-- The loop body of `init_defaults` (lines 89-92): iterate the keys of
`DEFAULTS` and call `self.__getattr__(key)` directly on each (note:
directly, bypassing the presence check of normal attribute lookup). -/
def initDefaultsLoop (cfg : Config) : List (String × DefVal) → Attrs → Except Unit Attrs
  | [], a => Except.ok a
  | (k, _) :: rest, a =>
    match dunderGetattr cfg a k with
    | Except.error _ => Except.error ()
    | Except.ok (_, a') => initDefaultsLoop cfg rest a'

/-- `SafeRefreshMixin.init_defaults` (lines 89-92). -/
def init_defaults (cfg : Config) (a : Attrs) : Except Unit Attrs :=
  initDefaultsLoop cfg cfg.defaults a

/-- `SafeRefreshMixin.revert` (lines 167-179).  `revert(history=h)`:
the guard `if not history:` is a falsy test, so both `h = none` and an
explicitly supplied empty dict take the pop branch.  The pop branch reads
`self._refresh_history` (materialising it to `[]` when absent) and pops
the last element, returning `False` on `IndexError`.  The snapshot is then
applied pair by pair via `__setattr__`.  Total: the Python function never
raises (the only possible exception, `IndexError`, is caught). -/
def revert (st : Inst) (h : Option Snap) : Bool × Inst :=
  match h with
  | some hist =>
    if hist.isEmpty then
      -- falsy argument: fall through to the pop branch
      match (st.history.getD []).getLast? with
      | Option.none => (false, { st with history := some [] })
      | some top =>
        (true, { st with attrs := applyPairs st.attrs top,
                         history := some (st.history.getD []).dropLast })
    else
      (true, { st with attrs := applyPairs st.attrs hist })
  | Option.none =>
    match (st.history.getD []).getLast? with
    | Option.none => (false, { st with history := some [] })
    | some top =>
      (true, { st with attrs := applyPairs st.attrs top,
                       history := some (st.history.getD []).dropLast })

/-- `SafeRefreshMixin.purge` (lines 181-187).  `del self._refresh_history`
raises `AttributeError` when the attribute was never materialised; the
handler catches `NameError`, which `del` of an attribute never raises, so
the error propagates and the trailing `self._refresh_history = []` never
runs. -/
def purge (st : Inst) : Except Unit Inst :=
  match st.history with
  | Option.none => Except.error ()
  | some _ => Except.ok { st with history := some [] }

/-- One entry of `NewClass.__dict__`: processing an item either yields a
value (`data` used as-is, `method` rebound via `__get__` to the bound
value it carries) or raises (`bad`, e.g. a failing descriptor). -/
inductive Item where
  | data (v : PyVal)
  | method (v : PyVal)
  | bad
deriving DecidableEq, Repr

/-- Lines 138-142: compute the value to store for one item, `Option.none`
modelling an exception raised while processing the item. -/
def processItem : Item → Option PyVal
  | Item.data v => some v
  | Item.method v => some v
  | Item.bad => Option.none

/-- The new definition handed to `refresh`: `NewClass.__dict__` as an
ordered list of entries (a Python dict, hence without duplicate keys)
plus `NewClass.STATICS`. -/
structure NewClass where
  dict : List (String × Item)
  statics : List String
deriving DecidableEq, Repr

/-- Result of the overwrite pass of `refresh` (the `try` block, lines
131-145): the attribute store, the pending snapshot `history`, and
whether the loop ran to completion (`ok = false` models an exception). -/
structure PassResult where
  attrs : Attrs
  hist : Snap
  ok : Bool
deriving DecidableEq, Repr

/-- Lines 131-145 of `refresh`: for every `(key, item)` of the new class
dict, skip keys in the *new* class's `STATICS`; otherwise process the
item (possibly raising), record the current value into the pending
snapshot when the key is already in `self.__dict__`, and overwrite. -/
def refreshPass (dict : List (String × Item)) (statics : List String)
    (attrs : Attrs) (hist : Snap) : PassResult :=
  match dict with
  | [] => ⟨attrs, hist, true⟩
  | (key, item) :: rest =>
    if key ∈ statics then refreshPass rest statics attrs hist
    else
      match processItem item with
      | Option.none => ⟨attrs, hist, false⟩
      | some v =>
        match dlookup attrs key with
        | some old => refreshPass rest statics (dset attrs key v) (dset hist key old)
        | Option.none => refreshPass rest statics (dset attrs key v) hist

/-- `SafeRefreshMixin.refresh` (lines 102-165) with an explicit new class
(the `NewClass is None` reload branch either raises before any mutation
or produces such a class; the default `pre_refresh` hook is a no-op and
its failure is swallowed, with no state effect either way).  `postFails`
models the overridable `post_refresh` hook raising.  Returns the success
flag (`false` = the Python call raised) and the final state.  On either
failure the code calls `self.revert(history=history)` with the pending
snapshot; on success it appends the snapshot to `_refresh_history`
(materialising it if needed) and increments `_refresh_rev`. -/
def refresh (st : Inst) (nc : NewClass) (postFails : Bool) : Bool × Inst :=
  let r := refreshPass nc.dict nc.statics st.attrs []
  let st1 : Inst := { st with attrs := r.attrs }
  if r.ok = false then
    (false, (revert st1 (some r.hist)).2)
  else if postFails then
    (false, (revert st1 (some r.hist)).2)
  else
    (true, { attrs := r.attrs,
             history := some ((st.history.getD []) ++ [r.hist]),
             rev := some ((st.rev.getD 0) + 1) })

/-- The value the new definition assigns to `n`, if any: nothing for
statics, nothing for names absent from the dict or whose item raises. -/
def newAssigns (nc : NewClass) (n : String) : Option PyVal :=
  if n ∈ nc.statics then Option.none
  else
    match dlookup nc.dict n with
    | Option.none => Option.none
    | some it => processItem it

/-- The pathological rollback inside `refresh`: the call failed with an
*empty* pending snapshot while `_refresh_history` is non-empty, so
`revert`'s falsy-argument check sends it down the pop branch and an
unrelated older snapshot is applied. -/
def staleRevertCase (st : Inst) (nc : NewClass) (pf : Bool) : Bool :=
  let r := refreshPass nc.dict nc.statics st.attrs []
  (!r.ok || pf) && r.hist.isEmpty && !(st.history.getD []).isEmpty

/-- Length of the (possibly unmaterialised) snapshot history. -/
def histLen (st : Inst) : Nat := (st.history.getD []).length

/-- One operation of a client-visible sequence: a refresh attempt with a
given new class and post-hook behaviour, or an argumentless `revert()`. -/
inductive Op where
  | refreshOp (nc : NewClass) (pf : Bool)
  | rollbackOp
deriving Repr

/-- Execute a sequence of operations. -/
def runOps : Inst → List Op → Inst
  | st, [] => st
  | st, Op.refreshOp nc pf :: rest => runOps (refresh st nc pf).2 rest
  | st, Op.rollbackOp :: rest => runOps (revert st Option.none).2 rest

/-- Number of *successful* refreshes along a run. -/
def countSucc : Inst → List Op → Nat
  | _, [] => 0
  | st, Op.refreshOp nc pf :: rest =>
    (if (refresh st nc pf).1 then 1 else 0) + countSucc (refresh st nc pf).2 rest
  | st, Op.rollbackOp :: rest => countSucc (revert st Option.none).2 rest

/-- Number of rollback operations in a sequence. -/
def countRoll : List Op → Nat
  | [] => 0
  | Op.refreshOp _ _ :: rest => countRoll rest
  | Op.rollbackOp :: rest => 1 + countRoll rest

/-- Number of history entries actually popped along a run: an
argumentless rollback pops one exactly when the history is non-empty, and
a failed refresh pops one exactly in the stale-revert case. -/
def countPop : Inst → List Op → Nat
  | _, [] => 0
  | st, Op.refreshOp nc pf :: rest =>
    (if staleRevertCase st nc pf then 1 else 0) + countPop (refresh st nc pf).2 rest
  | st, Op.rollbackOp :: rest =>
    (if (st.history.getD []).isEmpty then 0 else 1) + countPop (revert st Option.none).2 rest

/-- A freshly constructed instance: no attributes, bookkeeping attributes
not yet materialised. -/
def freshInst : Inst := ⟨[], Option.none, Option.none⟩

/-- Outcome of one `step()` invocation in `SafeRefreshableLoop.run`. -/
inductive StepOut where
  | ok
  | kbint
  | err
deriving DecidableEq, Repr

/-- State of the supervised loop: the `stopped` flag, whether the
`while True` loop was exited via `break` (KeyboardInterrupt), and the
owning instance. -/
structure LoopState where
  stopped : Bool
  broken : Bool
  inst : Inst
deriving DecidableEq, Repr

/-- One iteration of the `while True` body of `SafeRefreshableLoop.run`
(lines 240-257).  `f` is the application-supplied `step` (indexed by
iteration, allowed to mutate the instance, e.g. by self-refreshing).
If `stopped`, the body only sleeps.  A `KeyboardInterrupt` sets `stopped`
and breaks out of the loop.  Any other exception is recovered by calling
`self.revert()`: on `True` the loop stays running, on `False` it sets
`stopped = True` (and keeps polling; nothing inside `run` ever clears
`stopped` again). -/
def loopIter (f : Nat → Inst → StepOut × Inst) (i : Nat) (s : LoopState) : LoopState :=
  if s.broken then s
  else if s.stopped then s
  else
    match f i s.inst with
    | (StepOut.ok, inst1) => ⟨false, false, inst1⟩
    | (StepOut.kbint, inst1) => ⟨true, true, inst1⟩
    | (StepOut.err, inst1) =>
      let r := revert inst1 Option.none
      (⟨!r.1, false, r.2⟩ : LoopState)

/-- `n` further iterations of the loop body starting at iteration index `i`. -/
def iterLoop (f : Nat → Inst → StepOut × Inst) : Nat → Nat → LoopState → LoopState
  | _, 0, s => s
  | i, Nat.succ n, s => iterLoop f (i + 1) n (loopIter f i s)

/- ------------------------------------------------------------------ -/
/- Basic association-list lemmas                                       -/
/- ------------------------------------------------------------------ -/

theorem dlookup_dset {α : Type} (a : List (String × α)) (k : String) (v : α)
    (n : String) :
    dlookup (dset a k v) n = if k = n then some v else dlookup a n := by
  induction a with
  | nil => simp [dset, dlookup]
  | cons hd tl ih =>
    obtain ⟨k', w⟩ := hd
    by_cases hk : k' = k
    · subst hk
      by_cases hn : k' = n
      · subst hn; simp [dset, dlookup]
      · simp [dset, dlookup, hn]
    · by_cases hn : k' = n
      · subst hn
        simp [dset, dlookup, hk, Ne.symm hk]
      · simp [dset, dlookup, hk, hn, ih]

theorem dset_self {α : Type} (a : List (String × α)) (k : String) (v : α)
    (h : dlookup a k = some v) : dset a k v = a := by
  induction a with
  | nil => simp [dlookup] at h
  | cons hd tl ih =>
    obtain ⟨k', w⟩ := hd
    by_cases hk : k' = k
    · subst hk
      simp [dlookup] at h
      simp [dset, h]
    · simp [dlookup, hk] at h
      simp [dset, hk, ih h]

theorem dlookup_eq_none_of_not_mem {α : Type} (a : List (String × α))
    (n : String) (h : n ∉ a.map Prod.fst) : dlookup a n = Option.none := by
  induction a with
  | nil => simp [dlookup]
  | cons hd tl ih =>
    obtain ⟨k, v⟩ := hd
    simp only [List.map_cons, List.mem_cons] at h
    push_neg at h
    simp [dlookup, Ne.symm h.1, ih h.2]

theorem mem_of_dlookup_isSome {α : Type} (a : List (String × α)) (n : String)
    (h : (dlookup a n).isSome) : n ∈ a.map Prod.fst := by
  by_contra hn
  rw [dlookup_eq_none_of_not_mem a n hn] at h
  simp at h

theorem keys_dset_of_isSome {α : Type} (a : List (String × α)) (k : String) (v : α)
    (h : (dlookup a k).isSome) : (dset a k v).map Prod.fst = a.map Prod.fst := by
  induction a with
  | nil => simp [dlookup] at h
  | cons hd tl ih =>
    obtain ⟨k', w⟩ := hd
    by_cases hk : k' = k
    · subst hk; simp [dset]
    · simp only [dlookup, hk, if_false] at h
      simp [dset, hk, ih h]

theorem keys_dset_of_none {α : Type} (a : List (String × α)) (k : String) (v : α)
    (h : dlookup a k = Option.none) :
    (dset a k v).map Prod.fst = a.map Prod.fst ++ [k] := by
  induction a with
  | nil => simp [dset]
  | cons hd tl ih =>
    obtain ⟨k', w⟩ := hd
    by_cases hk : k' = k
    · subst hk; simp [dlookup] at h
    · simp only [dlookup, hk, if_false] at h
      simp [dset, hk, ih h]

theorem isSome_dlookup_of_mem {α : Type} (a : List (String × α)) (n : String)
    (h : n ∈ a.map Prod.fst) : (dlookup a n).isSome := by
  induction a with
  | nil => simp at h
  | cons hd tl ih =>
    obtain ⟨k, v⟩ := hd
    simp only [List.map_cons, List.mem_cons] at h
    by_cases hk : k = n
    · simp [dlookup, hk]
    · rcases h with h | h
      · exact absurd h.symm hk
      · simp [dlookup, hk, ih h]

theorem nodup_keys_dset {α : Type} (a : List (String × α)) (k : String) (v : α)
    (h : (a.map Prod.fst).Nodup) : ((dset a k v).map Prod.fst).Nodup := by
  rcases hm : dlookup a k with _ | w
  · rw [keys_dset_of_none a k v hm]
    have hk : k ∉ a.map Prod.fst := by
      intro hmem
      have hs := isSome_dlookup_of_mem a k hmem
      simp [hm] at hs
    simp [List.nodup_append, h, hk]
  · rw [keys_dset_of_isSome a k v (by simp [hm])]
    exact h

/- ------------------------------------------------------------------ -/
/- applyPairs lemmas                                                   -/
/- ------------------------------------------------------------------ -/

theorem applyPairs_isSome (s : Snap) : ∀ (a : Attrs) (n : String),
    (dlookup a n).isSome → (dlookup (applyPairs a s) n).isSome := by
  induction s with
  | nil => intro a n h; simpa [applyPairs] using h
  | cons hd tl ih =>
    intro a n h
    obtain ⟨k, v⟩ := hd
    simp only [applyPairs]
    apply ih
    rw [dlookup_dset]
    by_cases hk : k = n
    · simp [hk]
    · simpa [hk] using h

theorem applyPairs_none (s : Snap) : ∀ (a : Attrs) (n : String),
    dlookup s n = Option.none → dlookup (applyPairs a s) n = dlookup a n := by
  induction s with
  | nil => intro a n _; simp [applyPairs]
  | cons hd tl ih =>
    intro a n h
    obtain ⟨k, v⟩ := hd
    simp only [dlookup] at h
    by_cases hk : k = n
    · simp [hk] at h
    · simp only [hk, if_false] at h
      simp only [applyPairs]
      rw [ih _ _ h, dlookup_dset]
      simp [hk]

theorem applyPairs_some (s : Snap) (hnd : (s.map Prod.fst).Nodup) :
    ∀ (a : Attrs) (n : String) (v : PyVal),
    dlookup s n = some v → dlookup (applyPairs a s) n = some v := by
  induction s with
  | nil => intro a n v h; simp [dlookup] at h
  | cons hd tl ih =>
    intro a n v h
    obtain ⟨k, w⟩ := hd
    simp only [List.map_cons, List.nodup_cons] at hnd
    simp only [dlookup] at h
    by_cases hk : k = n
    · subst hk
      simp only [if_true, eq_self_iff_true] at h
      simp only [applyPairs]
      rw [applyPairs_none tl _ _ (dlookup_eq_none_of_not_mem tl k hnd.1), dlookup_dset]
      simpa using h
    · simp only [hk, if_false] at h
      simp only [applyPairs]
      exact ih hnd.2 _ _ _ h

/- ------------------------------------------------------------------ -/
/- Easy evaluation theorems (claims C3, C8)                            -/
/- ------------------------------------------------------------------ -/

/-- C3: reading a missing attribute whose default is a *truthy
non-callable literal* raises `AttributeError` instead of materialising
the literal (line 84 evaluates `value.__call__` on it), while a falsy
literal and a callable producer are materialised, stored and returned as
the claim describes.  This contradicts the code's own docstring ("the
attribute is populated from the dictionary"): the code is the slip. -/
theorem getattr_truthy_literal_default_raises :
    getAttr ⟨[("x", DefVal.lit (PyVal.int 5))], false⟩ [] "x" = Except.error () ∧
    getAttr ⟨[("x", DefVal.lit (PyVal.int 0))], false⟩ [] "x" =
      Except.ok (PyVal.int 0, [("x", PyVal.int 0)]) ∧
    getAttr ⟨[("x", DefVal.producer (PyVal.int 5))], false⟩ [] "x" =
      Except.ok (PyVal.int 5, [("x", PyVal.int 5)]) ∧
    getAttr ⟨[], true⟩ [] "y" = Except.ok (PyVal.none, [("y", PyVal.none)]) ∧
    getAttr ⟨[], false⟩ [] "y" = Except.error () :=
  ⟨rfl, rfl, rfl, rfl, rfl⟩

/-- C8: `purge` raises on an instance whose `_refresh_history` was never
materialised (`del` raises `AttributeError`, the `except NameError`
handler is dead code), while on any instance that has the attribute it
clears the history and leaves attributes and revision untouched. -/
theorem purge_raises_on_fresh_instance :
    purge ⟨[("A", PyVal.int 1)], Option.none, Option.none⟩ = Except.error () ∧
    purge ⟨[("A", PyVal.int 1)], some [[("B", PyVal.int 2)]], some 3⟩ =
      Except.ok ⟨[("A", PyVal.int 1)], some [], some 3⟩ :=
  ⟨rfl, rfl⟩

/- ------------------------------------------------------------------ -/
/- refreshPass lemmas                                                  -/
/- ------------------------------------------------------------------ -/

theorem refreshPass_isSome (statics : List String) (dict : List (String × Item)) :
    ∀ (attrs : Attrs) (hist : Snap) (n : String),
    (dlookup attrs n).isSome →
    (dlookup (refreshPass dict statics attrs hist).attrs n).isSome := by
  induction dict with
  | nil => intro attrs hist n h; simpa [refreshPass] using h
  | cons hd tl ih =>
    intro attrs hist n h
    obtain ⟨key, item⟩ := hd
    by_cases hk : key ∈ statics
    · simpa [refreshPass, hk] using ih attrs hist n h
    · rcases hpi : processItem item with _ | v
      · simpa [refreshPass, hk, hpi] using h
      · have hset : (dlookup (dset attrs key v) n).isSome := by
          rw [dlookup_dset]
          by_cases hkn : key = n
          · simp [hkn]
          · simpa [hkn] using h
        rcases hla : dlookup attrs key with _ | old
        · simpa [refreshPass, hk, hpi, hla] using ih (dset attrs key v) hist n hset
        · simpa [refreshPass, hk, hpi, hla] using
            ih (dset attrs key v) (dset hist key old) n hset

theorem refreshPass_statics (statics : List String) (dict : List (String × Item))
    (n : String) (hn : n ∈ statics) :
    ∀ (attrs : Attrs) (hist : Snap),
    dlookup (refreshPass dict statics attrs hist).attrs n = dlookup attrs n ∧
    dlookup (refreshPass dict statics attrs hist).hist n = dlookup hist n ∧
    (n ∉ hist.map Prod.fst → n ∉ (refreshPass dict statics attrs hist).hist.map Prod.fst) := by
  induction dict with
  | nil => intro attrs hist; simp [refreshPass]
  | cons hd tl ih =>
    intro attrs hist
    obtain ⟨key, item⟩ := hd
    by_cases hk : key ∈ statics
    · simpa [refreshPass, hk] using ih attrs hist
    · have hkn : key ≠ n := fun h => hk (h ▸ hn)
      rcases hpi : processItem item with _ | v
      · simp [refreshPass, hk, hpi]
      · rcases hla : dlookup attrs key with _ | old
        · have := ih (dset attrs key v) hist
          simp only [refreshPass, hk, if_false, hpi, hla]
          refine ⟨?_, this.2.1, this.2.2⟩
          rw [this.1, dlookup_dset]
          simp [hkn]
        · have := ih (dset attrs key v) (dset hist key old)
          simp only [refreshPass, hk, if_false, hpi, hla]
          refine ⟨?_, ?_, ?_⟩
          · rw [this.1, dlookup_dset]; simp [hkn]
          · rw [this.2.1, dlookup_dset]; simp [hkn]
          · intro hmem
            apply this.2.2
            rcases hh : dlookup hist key with _ | x
            · rw [keys_dset_of_none hist key old hh]
              simp [hmem, Ne.symm hkn]
            · rw [keys_dset_of_isSome hist key old (by simp [hh])]
              exact hmem

theorem refreshPass_hist_nodup (statics : List String) (dict : List (String × Item)) :
    ∀ (attrs : Attrs) (hist : Snap),
    (hist.map Prod.fst).Nodup →
    ((refreshPass dict statics attrs hist).hist.map Prod.fst).Nodup := by
  induction dict with
  | nil => intro attrs hist h; simpa [refreshPass] using h
  | cons hd tl ih =>
    intro attrs hist h
    obtain ⟨key, item⟩ := hd
    by_cases hk : key ∈ statics
    · simpa [refreshPass, hk] using ih attrs hist h
    · rcases hpi : processItem item with _ | v
      · simpa [refreshPass, hk, hpi] using h
      · rcases hla : dlookup attrs key with _ | old
        · simpa [refreshPass, hk, hpi, hla] using ih (dset attrs key v) hist h
        · simpa [refreshPass, hk, hpi, hla] using
            ih (dset attrs key v) (dset hist key old) (nodup_keys_dset hist key old h)

/-- Per-name characterisation of the overwrite pass, starting from an
arbitrary attribute store and pending snapshot.  First component: the
resulting pending snapshot at `n` is either what it already was, or the
*current* value of `n` (recorded when a non-static dict entry overwrote a
present attribute).  Second component: the resulting store at `n` is
either unchanged, or the processed value of the (unique) dict entry for
`n`, in which case, if `n` was present, its prior value was recorded. -/
theorem refreshPass_spec (statics : List String) (dict : List (String × Item))
    (hnd : (dict.map Prod.fst).Nodup) :
    ∀ (attrs : Attrs) (hist : Snap) (n : String),
    (dlookup (refreshPass dict statics attrs hist).hist n = dlookup hist n ∨
      ((dlookup dict n).isSome ∧ ¬ n ∈ statics ∧
       dlookup (refreshPass dict statics attrs hist).hist n = dlookup attrs n ∧
       (dlookup attrs n).isSome)) ∧
    (dlookup (refreshPass dict statics attrs hist).attrs n = dlookup attrs n ∨
      (∃ it v, dlookup dict n = some it ∧ ¬ n ∈ statics ∧ processItem it = some v ∧
        dlookup (refreshPass dict statics attrs hist).attrs n = some v ∧
        ((dlookup attrs n).isSome →
          dlookup (refreshPass dict statics attrs hist).hist n = dlookup attrs n))) := by
  induction dict with
  | nil => intro attrs hist n; simp [refreshPass]
  | cons hd tl ih =>
    obtain ⟨key, item⟩ := hd
    simp only [List.map_cons, List.nodup_cons] at hnd
    obtain ⟨hkey, hnd'⟩ := hnd
    intro attrs hist n
    by_cases hk : key ∈ statics
    · have h := ih hnd' attrs hist n
      simp only [refreshPass, if_pos hk]
      constructor
      · rcases h.1 with h1 | ⟨hs, hns, he, hp⟩
        · exact Or.inl h1
        · refine Or.inr ⟨?_, hns, he, hp⟩
          simp only [dlookup]
          by_cases hkn : key = n
          · simp [hkn]
          · simpa [hkn] using hs
      · rcases h.2 with h1 | ⟨it, v, hit, hns, hpv, hrv, himp⟩
        · exact Or.inl h1
        · have hkn : key ≠ n := fun hq => hns (hq ▸ hk)
          refine Or.inr ⟨it, v, ?_, hns, hpv, hrv, himp⟩
          simp only [dlookup, if_neg hkn]
          exact hit
    · rcases hpi : processItem item with _ | v
      · simp [refreshPass, hk, hpi]
      · have hkeyn : (dlookup tl n).isSome → key ≠ n := by
          intro hs hq
          exact hkey (hq ▸ mem_of_dlookup_isSome tl n hs)
        rcases hla : dlookup attrs key with _ | old
        · -- key was not previously present: the snapshot is not extended
          have h := ih hnd' (dset attrs key v) hist n
          simp only [refreshPass, if_neg hk, hpi, hla]
          constructor
          · rcases h.1 with h1 | ⟨hs, hns, he, hp⟩
            · exact Or.inl h1
            · have hkn : key ≠ n := hkeyn hs
              refine Or.inr ⟨by simp [dlookup, hkn, hs], hns, ?_, ?_⟩
              · rw [he, dlookup_dset, if_neg hkn]
              · rw [dlookup_dset, if_neg hkn] at hp; exact hp
          · rcases h.2 with h1 | ⟨it, v', hit, hns, hpv, hrv, himp⟩
            · by_cases hkn : key = n
              · subst hkn
                refine Or.inr ⟨item, v, by simp [dlookup], hk, hpi, ?_, ?_⟩
                · rw [h1, dlookup_dset, if_pos rfl]
                · intro hs; rw [hla] at hs; simp at hs
              · exact Or.inl (by rw [h1, dlookup_dset, if_neg hkn])
            · have hkn : key ≠ n := hkeyn (by simp [hit])
              refine Or.inr ⟨it, v', by simpa [dlookup, hkn] using hit, hns, hpv, hrv, ?_⟩
              intro hs
              have hres := himp (by rw [dlookup_dset, if_neg hkn]; exact hs)
              rw [dlookup_dset, if_neg hkn] at hres
              exact hres
        · -- key was present with value `old`: record it in the snapshot
          have h := ih hnd' (dset attrs key v) (dset hist key old) n
          simp only [refreshPass, if_neg hk, hpi, hla]
          constructor
          · rcases h.1 with h1 | ⟨hs, hns, he, hp⟩
            · by_cases hkn : key = n
              · subst hkn
                refine Or.inr ⟨by simp [dlookup], hk, ?_, by simp [hla]⟩
                rw [h1, dlookup_dset, if_pos rfl, hla]
              · exact Or.inl (by rw [h1, dlookup_dset, if_neg hkn])
            · have hkn : key ≠ n := hkeyn hs
              refine Or.inr ⟨by simp [dlookup, hkn, hs], hns, ?_, ?_⟩
              · rw [he, dlookup_dset, if_neg hkn]
              · rw [dlookup_dset, if_neg hkn] at hp; exact hp
          · rcases h.2 with h1 | ⟨it, v', hit, hns, hpv, hrv, himp⟩
            · by_cases hkn : key = n
              · subst hkn
                refine Or.inr ⟨item, v, by simp [dlookup], hk, hpi, ?_, ?_⟩
                · rw [h1, dlookup_dset, if_pos rfl]
                · intro _
                  rcases h.1 with g1 | ⟨gs, _, _, _⟩
                  · rw [g1, dlookup_dset, if_pos rfl, hla]
                  · exact absurd rfl (hkeyn gs)
              · exact Or.inl (by rw [h1, dlookup_dset, if_neg hkn])
            · have hkn : key ≠ n := hkeyn (by simp [hit])
              refine Or.inr ⟨it, v', by simpa [dlookup, hkn] using hit, hns, hpv, hrv, ?_⟩
              intro hs
              have hres := himp (by rw [dlookup_dset, if_neg hkn]; exact hs)
              rw [dlookup_dset, if_neg hkn] at hres
              exact hres

/- ------------------------------------------------------------------ -/
/- Path helpers for refresh                                            -/
/- ------------------------------------------------------------------ -/

/-- After a completed overwrite pass, a name holds either the value the
new definition assigns it or its prior value. -/
theorem pass_attrs_lookup (nc : NewClass) (hnd : (nc.dict.map Prod.fst).Nodup)
    (attrs : Attrs) (n : String) :
    dlookup (refreshPass nc.dict nc.statics attrs []).attrs n = newAssigns nc n ∨
    dlookup (refreshPass nc.dict nc.statics attrs []).attrs n = dlookup attrs n := by
  rcases (refreshPass_spec nc.statics nc.dict hnd attrs [] n).2 with h1 |
    ⟨it, v, hit, hns, hpv, hrv, _⟩
  · exact Or.inr h1
  · refine Or.inl ?_
    rw [hrv, newAssigns, if_neg hns, hit]
    exact hpv.symm

/-- If the pass stopped without having recorded any prior value, no
previously present attribute was overwritten. -/
theorem pass_attrs_of_empty_hist (nc : NewClass) (hnd : (nc.dict.map Prod.fst).Nodup)
    (attrs : Attrs) (n : String) (hpre : (dlookup attrs n).isSome)
    (hh : (refreshPass nc.dict nc.statics attrs []).hist = []) :
    dlookup (refreshPass nc.dict nc.statics attrs []).attrs n = dlookup attrs n := by
  rcases (refreshPass_spec nc.statics nc.dict hnd attrs [] n).2 with h1 |
    ⟨it, v, hit, hns, hpv, hrv, himp⟩
  · exact h1
  · have := himp hpre
    rw [hh] at this
    simp only [dlookup] at this
    rw [← this] at hpre
    simp at hpre

/-- Applying the pending snapshot to the post-pass store restores every
previously present name to its pre-pass value (the rollback inside
`refresh`, when the pending snapshot is what gets applied). -/
theorem pending_revert_restores (nc : NewClass) (hnd : (nc.dict.map Prod.fst).Nodup)
    (attrs : Attrs) (n : String) (hpre : (dlookup attrs n).isSome) :
    dlookup (applyPairs (refreshPass nc.dict nc.statics attrs []).attrs
      (refreshPass nc.dict nc.statics attrs []).hist) n = dlookup attrs n := by
  have hnodup : (((refreshPass nc.dict nc.statics attrs []).hist).map Prod.fst).Nodup :=
    refreshPass_hist_nodup nc.statics nc.dict attrs [] (by simp)
  rcases hsn : dlookup (refreshPass nc.dict nc.statics attrs []).hist n with _ | w
  · rw [applyPairs_none _ _ _ hsn]
    rcases (refreshPass_spec nc.statics nc.dict hnd attrs [] n).2 with h1 |
      ⟨it, v, hit, hns, hpv, hrv, himp⟩
    · exact h1
    · have := himp hpre
      rw [hsn] at this
      rw [← this] at hpre
      simp at hpre
  · rw [applyPairs_some _ hnodup _ _ _ hsn]
    rcases (refreshPass_spec nc.statics nc.dict hnd attrs [] n).1 with h1 |
      ⟨_, _, he, _⟩
    · rw [hsn] at h1; simp [dlookup] at h1
    · rw [← he, hsn]

theorem getLast?_cons_ne_none {α : Type} (x : α) (xs : List α) :
    (x :: xs).getLast? ≠ Option.none := by
  induction xs generalizing x with
  | nil => simp
  | cons y ys ih => rw [List.getLast?_cons_cons]; exact ih y

/-- On any failing refresh (pass raised, or the post hook raised), the
call reports failure and the resulting store is: the post-pass store with
the pending snapshot applied (pending snapshot non-empty); or the bare
post-pass store (pending snapshot empty and nothing in the history to
pop); or the post-pass store with a *popped older history snapshot*
applied (the stale case). -/
theorem refresh_fail_attrs (st : Inst) (nc : NewClass) (pf : Bool)
    (hfail : (refreshPass nc.dict nc.statics st.attrs []).ok = false ∨ pf = true) :
    (refresh st nc pf).1 = false ∧
    (((refresh st nc pf).2.attrs =
        applyPairs (refreshPass nc.dict nc.statics st.attrs []).attrs
          (refreshPass nc.dict nc.statics st.attrs []).hist ∧
      (refreshPass nc.dict nc.statics st.attrs []).hist ≠ []) ∨
     ((refresh st nc pf).2.attrs = (refreshPass nc.dict nc.statics st.attrs []).attrs ∧
      (refreshPass nc.dict nc.statics st.attrs []).hist = [] ∧
      st.history.getD [] = []) ∨
     (∃ top, (refresh st nc pf).2.attrs =
        applyPairs (refreshPass nc.dict nc.statics st.attrs []).attrs top ∧
      (refreshPass nc.dict nc.statics st.attrs []).hist = [] ∧
      (st.history.getD []).getLast? = some top)) := by
  have hkey : refresh st nc pf =
      (false, (revert { st with attrs := (refreshPass nc.dict nc.statics st.attrs []).attrs }
        (some (refreshPass nc.dict nc.statics st.attrs []).hist)).2) := by
    rcases hfail with h | h
    · simp only [refresh, h]
      simp
    · by_cases hok : (refreshPass nc.dict nc.statics st.attrs []).ok = false
      · simp only [refresh, hok]
        simp
      · simp only [refresh]
        simp [hok, h]
  rw [hkey]
  refine ⟨rfl, ?_⟩
  rcases hh : (refreshPass nc.dict nc.statics st.attrs []).hist with _ | ⟨p, rest⟩
  · rcases hg : (st.history.getD []).getLast? with _ | top
    · refine Or.inr (Or.inl ⟨?_, rfl, ?_⟩)
      · simp [revert, hg]
      · rcases hl : st.history.getD [] with _ | ⟨q, l⟩
        · rfl
        · rw [hl] at hg
          exact absurd hg (getLast?_cons_ne_none q l)
    · refine Or.inr (Or.inr ⟨top, ?_, rfl, rfl⟩)
      simp [revert, hg]
  · refine Or.inl ⟨?_, by simp⟩
    simp [revert]

/-- A refresh whose pass completed and whose post hook does not raise
reports success, stores the post-pass attributes, appends the pending
snapshot to the history and increments the revision. -/
theorem refresh_success_eq (st : Inst) (nc : NewClass)
    (hok : (refreshPass nc.dict nc.statics st.attrs []).ok = true) :
    refresh st nc false =
      (true, ⟨(refreshPass nc.dict nc.statics st.attrs []).attrs,
              some ((st.history.getD []) ++ [(refreshPass nc.dict nc.statics st.attrs []).hist]),
              some ((st.rev.getD 0) + 1)⟩) := by
  simp only [refresh]
  simp [hok]

/- ------------------------------------------------------------------ -/
/- Claim C1                                                            -/
/- ------------------------------------------------------------------ -/

/-- C1 counterexample: the claim "after `refresh` returns, every
attribute present before the call holds either the value the new
definition assigns it or its pre-call value" is false.  State: `A = 2`
with one history snapshot `{A: 1}` (left by an earlier refresh of `A`
from 1 to 2).  Refreshing with a definition `{B: <raises>}` fails before
touching any pre-existing attribute, so the pending snapshot is the
empty dict; `revert`'s falsy check then *pops and applies the old
snapshot*, leaving `A = 1` — a value that is neither `A`'s pre-call
value (2) nor anything the new definition assigns to `A`. -/
theorem refresh_atomicity_fails_on_empty_pending :
    dlookup ((refresh ⟨[("A", PyVal.int 2)], some [[("A", PyVal.int 1)]], some 1⟩
        ⟨[("B", Item.bad)], []⟩ false).2.attrs) "A" = some (PyVal.int 1) ∧
    dlookup (⟨[("A", PyVal.int 2)], some [[("A", PyVal.int 1)]], some 1⟩ : Inst).attrs "A" =
      some (PyVal.int 2) ∧
    newAssigns ⟨[("B", Item.bad)], []⟩ "A" = Option.none ∧
    ¬ (dlookup ((refresh ⟨[("A", PyVal.int 2)], some [[("A", PyVal.int 1)]], some 1⟩
          ⟨[("B", Item.bad)], []⟩ false).2.attrs) "A" =
        newAssigns ⟨[("B", Item.bad)], []⟩ "A" ∨
       dlookup ((refresh ⟨[("A", PyVal.int 2)], some [[("A", PyVal.int 1)]], some 1⟩
          ⟨[("B", Item.bad)], []⟩ false).2.attrs) "A" =
        dlookup (⟨[("A", PyVal.int 2)], some [[("A", PyVal.int 1)]], some 1⟩ : Inst).attrs "A") := by
  refine ⟨rfl, rfl, rfl, ?_⟩
  decide

/-- C1 (amended): after `refresh` returns (success or failure), every
attribute name present before the call is still present; and, *except
when the refresh fails with an empty pending snapshot while the history
is non-empty* (in which case `revert`'s falsy-argument check pops and
applies an unrelated older snapshot), its value is either the value the
new definition assigns it or its pre-call value. -/
theorem refresh_atomicity_amended (st : Inst) (nc : NewClass) (pf : Bool)
    (hnd : (nc.dict.map Prod.fst).Nodup) (n : String)
    (hpre : (dlookup st.attrs n).isSome) :
    (dlookup (refresh st nc pf).2.attrs n).isSome ∧
    (staleRevertCase st nc pf = false →
      dlookup (refresh st nc pf).2.attrs n = newAssigns nc n ∨
      dlookup (refresh st nc pf).2.attrs n = dlookup st.attrs n) := by
  by_cases hfail : (refreshPass nc.dict nc.statics st.attrs []).ok = false ∨ pf = true
  · have h := refresh_fail_attrs st nc pf hfail
    rcases h.2 with ⟨ha, hne⟩ | ⟨ha, hh, hhist⟩ | ⟨top, ha, hh, hg⟩
    · constructor
      · rw [ha]
        exact applyPairs_isSome _ _ _ (refreshPass_isSome _ _ _ _ _ hpre)
      · intro _
        exact Or.inr (ha ▸ pending_revert_restores nc hnd st.attrs n hpre)
    · constructor
      · rw [ha]
        exact refreshPass_isSome _ _ _ _ _ hpre
      · intro _
        rw [ha]
        exact Or.inr (pass_attrs_of_empty_hist nc hnd st.attrs n hpre hh)
    · constructor
      · rw [ha]
        exact applyPairs_isSome _ _ _ (refreshPass_isSome _ _ _ _ _ hpre)
      · intro hstale
        exfalso
        have hstale' : staleRevertCase st nc pf = true := by
          simp only [staleRevertCase]
          have h1 : (!(refreshPass nc.dict nc.statics st.attrs []).ok || pf) = true := by
            rcases hfail with hx | hx
            · simp [hx]
            · simp [hx]
          have h2 : (refreshPass nc.dict nc.statics st.attrs []).hist.isEmpty = true := by
            simp [hh]
          have h3 : (st.history.getD []).isEmpty = false := by
            rcases hl : st.history.getD [] with _ | ⟨q, l⟩
            · rw [hl] at hg
              simp [List.getLast?] at hg
            · simp
          simp [h1, h2, h3]
        rw [hstale'] at hstale
        exact absurd hstale (by simp)
  · push_neg at hfail
    obtain ⟨hok, hpf⟩ := hfail
    have hok' : (refreshPass nc.dict nc.statics st.attrs []).ok = true := by
      simpa using hok
    have hpf' : pf = false := by
      simpa using hpf
    subst hpf'
    rw [refresh_success_eq st nc hok']
    exact ⟨refreshPass_isSome _ _ _ _ _ hpre, fun _ => pass_attrs_lookup nc hnd st.attrs n⟩

/-- C1 witness: the amended atomicity theorem applied to a concrete
refresh that replaces `A = 1` by `A = 3`. -/
theorem refresh_atomicity_amended_witness :
    (dlookup ((refresh ⟨[("A", PyVal.int 1)], Option.none, Option.none⟩
        ⟨[("A", Item.data (PyVal.int 3))], []⟩ false).2.attrs) "A").isSome ∧
    (staleRevertCase ⟨[("A", PyVal.int 1)], Option.none, Option.none⟩
        ⟨[("A", Item.data (PyVal.int 3))], []⟩ false = false →
      dlookup ((refresh ⟨[("A", PyVal.int 1)], Option.none, Option.none⟩
          ⟨[("A", Item.data (PyVal.int 3))], []⟩ false).2.attrs) "A" =
        newAssigns ⟨[("A", Item.data (PyVal.int 3))], []⟩ "A" ∨
      dlookup ((refresh ⟨[("A", PyVal.int 1)], Option.none, Option.none⟩
          ⟨[("A", Item.data (PyVal.int 3))], []⟩ false).2.attrs) "A" =
        dlookup (⟨[("A", PyVal.int 1)], Option.none, Option.none⟩ : Inst).attrs "A") :=
  refresh_atomicity_amended ⟨[("A", PyVal.int 1)], Option.none, Option.none⟩
    ⟨[("A", Item.data (PyVal.int 3))], []⟩ false (by decide) "A" (by decide)

/- ------------------------------------------------------------------ -/
/- Claim C2                                                            -/
/- ------------------------------------------------------------------ -/

/-- C2 counterexample: after a failure in the overwrite pass the
instance is *not* in exactly its pre-refresh state.  Refreshing
`{A: 1}` with `{B: 5, C: <raises>}` fails at `C`, but the newly
introduced attribute `B = 5` survives the rollback (the pending snapshot
records only previously present names, and `revert` never deletes). -/
theorem refresh_failure_not_exact_prestate :
    (refresh ⟨[("A", PyVal.int 1)], some [], Option.none⟩
        ⟨[("B", Item.data (PyVal.int 5)), ("C", Item.bad)], []⟩ false).1 = false ∧
    dlookup ((refresh ⟨[("A", PyVal.int 1)], some [], Option.none⟩
        ⟨[("B", Item.data (PyVal.int 5)), ("C", Item.bad)], []⟩ false).2.attrs) "B" =
      some (PyVal.int 5) ∧
    dlookup (⟨[("A", PyVal.int 1)], some [], Option.none⟩ : Inst).attrs "B" = Option.none := by
  refine ⟨rfl, rfl, rfl⟩

/-- C2 (amended): when the overwrite pass fails, `refresh` rolls back
with the pending snapshot and reports failure, and every *previously
present* attribute is restored to its exact pre-call value — provided
the stale-pop case is not taken (pending snapshot non-empty, or history
empty).  Names newly introduced by the failed pass persist, and in the
stale case an unrelated popped snapshot is applied instead. -/
theorem refresh_failed_pass_restores_preexisting (st : Inst) (nc : NewClass)
    (hnd : (nc.dict.map Prod.fst).Nodup)
    (hfail : (refreshPass nc.dict nc.statics st.attrs []).ok = false)
    (hns : staleRevertCase st nc false = false)
    (n : String) (hpre : (dlookup st.attrs n).isSome) :
    (refresh st nc false).1 = false ∧
    dlookup (refresh st nc false).2.attrs n = dlookup st.attrs n := by
  have h := refresh_fail_attrs st nc false (Or.inl hfail)
  refine ⟨h.1, ?_⟩
  rcases h.2 with ⟨ha, hne⟩ | ⟨ha, hh, hhist⟩ | ⟨top, ha, hh, hg⟩
  · exact ha ▸ pending_revert_restores nc hnd st.attrs n hpre
  · rw [ha]
    exact pass_attrs_of_empty_hist nc hnd st.attrs n hpre hh
  · exfalso
    have hstale' : staleRevertCase st nc false = true := by
      simp only [staleRevertCase]
      have h3 : (st.history.getD []).isEmpty = false := by
        rcases hl : st.history.getD [] with _ | ⟨q, l⟩
        · rw [hl] at hg
          simp [List.getLast?] at hg
        · simp
      simp [hfail, hh, h3]
    rw [hstale'] at hns
    exact absurd hns (by simp)

/-- C2 witness: a failing refresh of `{A: 1}` with `{A: 7, C: <raises>}`
restores `A` to 1 (the pending snapshot `{A: 1}` is applied). -/
theorem refresh_failed_pass_restores_preexisting_witness :
    (refresh ⟨[("A", PyVal.int 1)], Option.none, Option.none⟩
        ⟨[("A", Item.data (PyVal.int 7)), ("C", Item.bad)], []⟩ false).1 = false ∧
    dlookup ((refresh ⟨[("A", PyVal.int 1)], Option.none, Option.none⟩
        ⟨[("A", Item.data (PyVal.int 7)), ("C", Item.bad)], []⟩ false).2.attrs) "A" =
      dlookup (⟨[("A", PyVal.int 1)], Option.none, Option.none⟩ : Inst).attrs "A" :=
  refresh_failed_pass_restores_preexisting
    ⟨[("A", PyVal.int 1)], Option.none, Option.none⟩
    ⟨[("A", Item.data (PyVal.int 7)), ("C", Item.bad)], []⟩
    (by decide) (by decide) (by decide) "A" (by decide)

/- ------------------------------------------------------------------ -/
/- Claim C5                                                            -/
/- ------------------------------------------------------------------ -/

/-- C5 counterexample: a statics name is *not* always left unchanged by
`refresh`.  A first refresh takes `A` from 1 to 2 (recording snapshot
`{A: 1}`); a second refresh whose definition lists `A` in `statics` but
fails at `B` before overwriting anything has an empty pending snapshot,
so the rollback pops the older `{A: 1}` snapshot and changes `A` from 2
back to 1 even though `A` is static for this refresh. -/
theorem statics_changed_via_stale_pop :
    "A" ∈ (NewClass.mk [("B", Item.bad)] ["A"]).statics ∧
    dlookup ((refresh ⟨[("A", PyVal.int 1)], Option.none, Option.none⟩
        ⟨[("A", Item.data (PyVal.int 2))], []⟩ false).2.attrs) "A" = some (PyVal.int 2) ∧
    dlookup ((refresh (refresh ⟨[("A", PyVal.int 1)], Option.none, Option.none⟩
          ⟨[("A", Item.data (PyVal.int 2))], []⟩ false).2
        ⟨[("B", Item.bad)], ["A"]⟩ false).2.attrs) "A" = some (PyVal.int 1) := by
  refine ⟨by decide, rfl, rfl⟩

/-- C5 (amended): provided the refresh does not take the stale-pop
fallback, every name in the *new* definition's statics list keeps its
value regardless of what the definition specifies for it, and such a
name never appears as a key of the pending snapshot this refresh builds
(the snapshot that is pushed on success or applied on rollback). -/
theorem refresh_statics_unchanged (st : Inst) (nc : NewClass) (pf : Bool)
    (n : String) (hn : n ∈ nc.statics)
    (hns : staleRevertCase st nc pf = false) :
    dlookup (refresh st nc pf).2.attrs n = dlookup st.attrs n ∧
    n ∉ (refreshPass nc.dict nc.statics st.attrs []).hist.map Prod.fst := by
  have hstat := refreshPass_statics nc.statics nc.dict n hn st.attrs []
  have hmem : n ∉ (refreshPass nc.dict nc.statics st.attrs []).hist.map Prod.fst :=
    hstat.2.2 (by simp)
  refine ⟨?_, hmem⟩
  by_cases hfail : (refreshPass nc.dict nc.statics st.attrs []).ok = false ∨ pf = true
  · have h := refresh_fail_attrs st nc pf hfail
    rcases h.2 with ⟨ha, hne⟩ | ⟨ha, hh, hhist⟩ | ⟨top, ha, hh, hg⟩
    · rw [ha, applyPairs_none _ _ _ (dlookup_eq_none_of_not_mem _ _ hmem)]
      exact hstat.1
    · rw [ha]
      exact hstat.1
    · exfalso
      have hstale' : staleRevertCase st nc pf = true := by
        simp only [staleRevertCase]
        have h1 : (!(refreshPass nc.dict nc.statics st.attrs []).ok || pf) = true := by
          rcases hfail with hx | hx
          · simp [hx]
          · simp [hx]
        have h3 : (st.history.getD []).isEmpty = false := by
          rcases hl : st.history.getD [] with _ | ⟨q, l⟩
          · rw [hl] at hg
            simp [List.getLast?] at hg
          · simp
        simp [h1, hh, h3]
      rw [hstale'] at hns
      exact absurd hns (by simp)
  · push_neg at hfail
    obtain ⟨hok, hpf⟩ := hfail
    have hok' : (refreshPass nc.dict nc.statics st.attrs []).ok = true := by
      simpa using hok
    have hpf' : pf = false := by
      simpa using hpf
    subst hpf'
    rw [refresh_success_eq st nc hok']
    exact hstat.1

/-- C5 witness: a refresh whose definition assigns `A := 9` but lists
`A` as static leaves `A = 1` untouched and records no snapshot entry
for `A`. -/
theorem refresh_statics_unchanged_witness :
    dlookup ((refresh ⟨[("A", PyVal.int 1)], Option.none, Option.none⟩
        ⟨[("A", Item.data (PyVal.int 9))], ["A"]⟩ false).2.attrs) "A" =
      dlookup (⟨[("A", PyVal.int 1)], Option.none, Option.none⟩ : Inst).attrs "A" ∧
    "A" ∉ (refreshPass [("A", Item.data (PyVal.int 9))] ["A"]
        [("A", PyVal.int 1)] []).hist.map Prod.fst :=
  refresh_statics_unchanged ⟨[("A", PyVal.int 1)], Option.none, Option.none⟩
    ⟨[("A", Item.data (PyVal.int 9))], ["A"]⟩ false "A" (by decide) (by decide)

/- ------------------------------------------------------------------ -/
/- init_defaults lemmas                                                -/
/- ------------------------------------------------------------------ -/

/-- The outcome of `__getattr__` for a name, as a function of the class
configuration alone: `Option.none` models the raised `AttributeError`,
`some v` the value that gets stored and returned. -/
def defaultResult (cfg : Config) (k : String) : Option PyVal :=
  if (dlookup cfg.defaults k).isNone && !cfg.autoNone then Option.none
  else
    match dlookup cfg.defaults k with
    | Option.none => some PyVal.none
    | some (DefVal.producer v) => some v
    | some (DefVal.lit v) => if truthy v then Option.none else some v

/-- `__getattr__` either raises, or stores and returns a value that
depends only on the configuration (not on the current attributes). -/
theorem dunderGetattr_eq (cfg : Config) (a : Attrs) (k : String) :
    dunderGetattr cfg a k =
      match defaultResult cfg k with
      | Option.none => Except.error ()
      | some v => Except.ok (v, dset a k v) := by
  unfold dunderGetattr defaultResult
  by_cases hc : ((dlookup cfg.defaults k).isNone && !cfg.autoNone) = true
  · simp [hc]
  · simp only [if_neg hc]
    rcases hd : dlookup cfg.defaults k with _ | d
    · rfl
    · rcases d with w | w
      · by_cases ht : truthy w = true
        · simp [ht]
        · simp [ht]
      · rfl

/-- Keys not iterated over are untouched by the `init_defaults` loop. -/
theorem initDefaultsLoop_untouched (cfg : Config) (l : List (String × DefVal)) :
    ∀ (a a' : Attrs), initDefaultsLoop cfg l a = Except.ok a' →
    ∀ n, n ∉ l.map Prod.fst → dlookup a' n = dlookup a n := by
  induction l with
  | nil =>
    intro a a' h n _
    simp only [initDefaultsLoop, Except.ok.injEq] at h
    rw [h]
  | cons hd tl ih =>
    intro a a' h n hn
    obtain ⟨k, d⟩ := hd
    simp only [List.map_cons, List.mem_cons] at hn
    push_neg at hn
    simp only [initDefaultsLoop] at h
    rw [dunderGetattr_eq] at h
    rcases hr : defaultResult cfg k with _ | v
    · rw [hr] at h
      simp at h
    · rw [hr] at h
      replace h : initDefaultsLoop cfg tl (dset a k v) = Except.ok a' := h
      rw [ih _ _ h n hn.2, dlookup_dset, if_neg (fun hq => hn.1 hq.symm)]

/-- The loop preserves present attributes and materialises every
iterated key. -/
theorem initDefaultsLoop_mat (cfg : Config) (l : List (String × DefVal)) :
    ∀ (a a' : Attrs), initDefaultsLoop cfg l a = Except.ok a' →
    (∀ n, (dlookup a n).isSome → (dlookup a' n).isSome) ∧
    (∀ n, n ∈ l.map Prod.fst → (dlookup a' n).isSome) := by
  induction l with
  | nil =>
    intro a a' h
    simp only [initDefaultsLoop, Except.ok.injEq] at h
    subst h
    exact ⟨fun n hs => hs, by simp⟩
  | cons hd tl ih =>
    intro a a' h
    obtain ⟨k, d⟩ := hd
    simp only [initDefaultsLoop] at h
    rw [dunderGetattr_eq] at h
    rcases hr : defaultResult cfg k with _ | v
    · rw [hr] at h
      simp at h
    · rw [hr] at h
      replace h : initDefaultsLoop cfg tl (dset a k v) = Except.ok a' := h
      have hset : ∀ n, (dlookup a n).isSome → (dlookup (dset a k v) n).isSome := by
        intro n hs
        rw [dlookup_dset]
        by_cases hkn : k = n
        · simp [hkn]
        · simpa [hkn] using hs
      refine ⟨fun n hs => (ih _ _ h).1 n (hset n hs), ?_⟩
      intro n hn
      simp only [List.map_cons, List.mem_cons] at hn
      rcases hn with hn | hn
      · subst hn
        exact (ih _ _ h).1 n (by rw [dlookup_dset, if_pos rfl]; simp)
      · exact (ih _ _ h).2 n hn

/-- Re-running the loop from a successful result changes nothing: each
key's materialised value depends only on the configuration and is
already in place. -/
theorem initDefaultsLoop_idem (cfg : Config) (l : List (String × DefVal))
    (hnd : (l.map Prod.fst).Nodup) :
    ∀ (a a' : Attrs), initDefaultsLoop cfg l a = Except.ok a' →
    initDefaultsLoop cfg l a' = Except.ok a' := by
  induction l with
  | nil => intro a a' _; rfl
  | cons hd tl ih =>
    obtain ⟨k, d⟩ := hd
    simp only [List.map_cons, List.nodup_cons] at hnd
    intro a a' h
    simp only [initDefaultsLoop] at h ⊢
    rw [dunderGetattr_eq] at h ⊢
    rcases hr : defaultResult cfg k with _ | v
    · rw [hr] at h
      simp at h
    · rw [hr] at h
      replace h : initDefaultsLoop cfg tl (dset a k v) = Except.ok a' := h
      have hk : dlookup a' k = some v := by
        rw [initDefaultsLoop_untouched cfg tl _ _ h k hnd.1, dlookup_dset, if_pos rfl]
      show initDefaultsLoop cfg tl (dset a' k v) = Except.ok a'
      rw [dset_self a' k v hk]
      exact ih hnd.2 _ _ h

/- ------------------------------------------------------------------ -/
/- Claim C4                                                            -/
/- ------------------------------------------------------------------ -/

/-- C4 counterexample: `init_defaults` *does* overwrite an
already-present attribute.  With `DEFAULTS = {x: lambda: 0}` and the
attribute `x = 42` already present, the loop calls `__getattr__("x")`
directly (bypassing the presence check), which re-materialises the
default and stores `x = 0`. -/
theorem init_defaults_overwrites_present :
    dlookup [("x", PyVal.int 42)] "x" = some (PyVal.int 42) ∧
    init_defaults ⟨[("x", DefVal.producer (PyVal.int 0))], false⟩ [("x", PyVal.int 42)] =
      Except.ok [("x", PyVal.int 0)] :=
  ⟨rfl, rfl⟩

/-- C4 (amended): a successful `init_defaults` materialises every key of
`defaults` and is idempotent — running it again from the result succeeds
and changes nothing — but it overwrites already-present attributes with
their freshly materialised default values rather than only filling
gaps. -/
theorem init_defaults_idempotent_materializes (cfg : Config) (a a' : Attrs)
    (hnd : (cfg.defaults.map Prod.fst).Nodup)
    (h : init_defaults cfg a = Except.ok a') :
    init_defaults cfg a' = Except.ok a' ∧
    ∀ k, (dlookup cfg.defaults k).isSome → (dlookup a' k).isSome := by
  refine ⟨initDefaultsLoop_idem cfg cfg.defaults hnd a a' h, ?_⟩
  intro k hk
  exact (initDefaultsLoop_mat cfg cfg.defaults a a' h).2 k (mem_of_dlookup_isSome _ _ hk)

/-- C4 witness: the amended theorem at a concrete configuration with a
producer and a (falsy) literal default. -/
theorem init_defaults_idempotent_materializes_witness :
    init_defaults ⟨[("x", DefVal.producer (PyVal.int 7)), ("y", DefVal.lit PyVal.none)], false⟩
        [("x", PyVal.int 7), ("y", PyVal.none)] =
      Except.ok [("x", PyVal.int 7), ("y", PyVal.none)] ∧
    (dlookup [("x", PyVal.int 7), ("y", PyVal.none)] "x").isSome :=
  ⟨(init_defaults_idempotent_materializes
      ⟨[("x", DefVal.producer (PyVal.int 7)), ("y", DefVal.lit PyVal.none)], false⟩
      [] [("x", PyVal.int 7), ("y", PyVal.none)] (by decide) rfl).1,
   (init_defaults_idempotent_materializes
      ⟨[("x", DefVal.producer (PyVal.int 7)), ("y", DefVal.lit PyVal.none)], false⟩
      [] [("x", PyVal.int 7), ("y", PyVal.none)] (by decide) rfl).2 "x" (by decide)⟩

/- ------------------------------------------------------------------ -/
/- Claim C9                                                            -/
/- ------------------------------------------------------------------ -/

/-- C9: argumentless `revert` with an empty (or never materialised)
history reports failure as an ordinary return value — the embedding is a
total function, faithfully modelling that the Python code catches the
only possible exception (`IndexError`) — and with a non-empty history it
pops the most recent snapshot, applies every `(name, value)` pair of it
via attribute assignment, and reports success; attributes other than the
popped snapshot and the revision are untouched. -/
theorem revert_noarg_spec (st : Inst) :
    (st.history.getD [] = [] →
      revert st Option.none = (false, { st with history := some [] })) ∧
    (∀ hs top, st.history.getD [] = hs ++ [top] →
      revert st Option.none =
        (true, { st with attrs := applyPairs st.attrs top, history := some hs })) := by
  constructor
  · intro h
    simp [revert, h]
  · intro hs top h
    simp [revert, h, List.getLast?_concat, List.dropLast_concat]

/-- C9 witness: the two cases at concrete states — a fresh instance
(nothing to revert, result `False`) and an instance with one snapshot
`{A: 1}` over `A = 2` (popped and applied, result `True`). -/
theorem revert_noarg_spec_witness :
    revert ⟨[], Option.none, Option.none⟩ Option.none =
      (false, ⟨[], some [], Option.none⟩) ∧
    revert ⟨[("A", PyVal.int 2)], some [[("A", PyVal.int 1)]], some 1⟩ Option.none =
      (true, ⟨applyPairs [("A", PyVal.int 2)] [("A", PyVal.int 1)], some [], some 1⟩) :=
  ⟨(revert_noarg_spec ⟨[], Option.none, Option.none⟩).1 rfl,
   (revert_noarg_spec ⟨[("A", PyVal.int 2)], some [[("A", PyVal.int 1)]], some 1⟩).2
     [] [("A", PyVal.int 1)] rfl⟩

/- ------------------------------------------------------------------ -/
/- Claim C10                                                           -/
/- ------------------------------------------------------------------ -/

/-- C10 counterexample: `revert` with an explicitly supplied *empty*
snapshot does not leave the state alone — `if not history:` is a falsy
test, so the empty dict is treated exactly like passing no argument: the
most recent history snapshot `{A: 0}` is popped and applied, changing
`A` from 1 to 0 and shrinking the history. -/
theorem revert_empty_snapshot_pops_history :
    revert ⟨[("A", PyVal.int 1)], some [[("A", PyVal.int 0)]], some 1⟩ (some []) =
      (true, ⟨[("A", PyVal.int 0)], some [], some 1⟩) ∧
    dlookup (⟨[("A", PyVal.int 1)], some [[("A", PyVal.int 0)]], some 1⟩ : Inst).attrs "A" =
      some (PyVal.int 1) :=
  ⟨rfl, rfl⟩

/-- C10 (amended): `revert` with an explicitly supplied *non-empty*
snapshot applies exactly that snapshot's pairs, reports success, and
leaves the history untouched; an explicitly supplied *empty* snapshot is
falsy and therefore behaves identically to supplying no snapshot at all
(it falls through to the history-popping branch). -/
theorem revert_explicit_snapshot_amended (st : Inst) (h : Snap) :
    (h ≠ [] →
      revert st (some h) = (true, { st with attrs := applyPairs st.attrs h })) ∧
    (h = [] → revert st (some h) = revert st Option.none) := by
  constructor
  · intro hne
    have : h.isEmpty = false := by
      rcases h with _ | ⟨p, rest⟩
      · exact absurd rfl hne
      · simp
    simp [revert, this]
  · intro he
    subst he
    simp only [revert, List.isEmpty_nil, if_true]

/-- C10 witness: applying the explicit snapshot `{A: 5}` to `A = 1`
leaves the history alone, and the explicit empty snapshot coincides with
the argumentless call on a concrete state. -/
theorem revert_explicit_snapshot_amended_witness :
    revert ⟨[("A", PyVal.int 1)], some [[("A", PyVal.int 0)]], some 1⟩
        (some [("A", PyVal.int 5)]) =
      (true, ⟨applyPairs [("A", PyVal.int 1)] [("A", PyVal.int 5)],
              some [[("A", PyVal.int 0)]], some 1⟩) ∧
    revert ⟨[("B", PyVal.int 2)], some [[("B", PyVal.int 3)]], Option.none⟩ (some []) =
      revert ⟨[("B", PyVal.int 2)], some [[("B", PyVal.int 3)]], Option.none⟩ Option.none :=
  ⟨(revert_explicit_snapshot_amended
      ⟨[("A", PyVal.int 1)], some [[("A", PyVal.int 0)]], some 1⟩
      [("A", PyVal.int 5)]).1 (by decide),
   (revert_explicit_snapshot_amended
      ⟨[("B", PyVal.int 2)], some [[("B", PyVal.int 3)]], Option.none⟩ []).2 rfl⟩

/- ------------------------------------------------------------------ -/
/- History length accounting (claim C6)                                -/
/- ------------------------------------------------------------------ -/

/-- A failing refresh returns `False` together with the state produced
by `revert(history=pending)` on the post-pass store. -/
theorem refresh_fail_eq (st : Inst) (nc : NewClass) (pf : Bool)
    (hfail : (refreshPass nc.dict nc.statics st.attrs []).ok = false ∨ pf = true) :
    refresh st nc pf =
      (false, (revert { st with attrs := (refreshPass nc.dict nc.statics st.attrs []).attrs }
        (some (refreshPass nc.dict nc.statics st.attrs []).hist)).2) := by
  rcases hfail with h | h
  · simp only [refresh, h]
    simp
  · by_cases hok : (refreshPass nc.dict nc.statics st.attrs []).ok = false
    · simp only [refresh, hok]
      simp
    · simp only [refresh]
      simp [hok, h]

/-- Exact history-length delta of one refresh attempt: `+1` on success,
`-1` in the stale-pop case, `0` otherwise. -/
theorem histLen_refresh (st : Inst) (nc : NewClass) (pf : Bool) :
    (histLen (refresh st nc pf).2 : Int) =
      (histLen st : Int) + (if (refresh st nc pf).1 then 1 else 0)
        - (if staleRevertCase st nc pf then 1 else 0) := by
  by_cases hfail : (refreshPass nc.dict nc.statics st.attrs []).ok = false ∨ pf = true
  · rw [refresh_fail_eq st nc pf hfail]
    have h1 : (!(refreshPass nc.dict nc.statics st.attrs []).ok || pf) = true := by
      rcases hfail with hx | hx
      · simp [hx]
      · simp [hx]
    rcases hh : (refreshPass nc.dict nc.statics st.attrs []).hist with _ | ⟨p, rest⟩
    · rcases hg : (st.history.getD []).getLast? with _ | top
      · have hnil : st.history.getD [] = [] := by
          rcases hl : st.history.getD [] with _ | ⟨q, l⟩
          · rfl
          · rw [hl] at hg
            exact absurd hg (getLast?_cons_ne_none q l)
        have hstale : staleRevertCase st nc pf = false := by
          simp [staleRevertCase, hnil, hh]
        simp [revert, hg, hstale, histLen, hnil]
      · have hne : (st.history.getD []).isEmpty = false := by
          rcases hl : st.history.getD [] with _ | ⟨q, l⟩
          · rw [hl] at hg
            simp [List.getLast?] at hg
          · simp
        have hstale : staleRevertCase st nc pf = true := by
          simp [staleRevertCase, h1, hh, hne]
        have hlen : 0 < (st.history.getD []).length := by
          rcases hl : st.history.getD [] with _ | ⟨q, l⟩
          · rw [hl] at hg
            simp [List.getLast?] at hg
          · simp
        simp only [revert, List.isEmpty_nil, if_true, hg, hstale, histLen]
        simp only [Option.getD_some, List.length_dropLast]
        push_cast
        omega
    · have hstale : staleRevertCase st nc pf = false := by
        simp [staleRevertCase, hh]
      simp [revert, hh, hstale, histLen]
  · push_neg at hfail
    obtain ⟨hok, hpf⟩ := hfail
    have hok' : (refreshPass nc.dict nc.statics st.attrs []).ok = true := by
      simpa using hok
    have hpf' : pf = false := by
      simpa using hpf
    subst hpf'
    have hstale : staleRevertCase st nc false = false := by
      simp [staleRevertCase, hok']
    rw [refresh_success_eq st nc hok']
    simp [histLen, hstale]

/-- Exact history-length delta of one argumentless rollback: `-1` when
the history is non-empty, `0` otherwise. -/
theorem histLen_revert_none (st : Inst) :
    (histLen (revert st Option.none).2 : Int) =
      (histLen st : Int) - (if (st.history.getD []).isEmpty then 0 else 1) := by
  rcases hg : (st.history.getD []).getLast? with _ | top
  · have hnil : st.history.getD [] = [] := by
      rcases hl : st.history.getD [] with _ | ⟨q, l⟩
      · rfl
      · rw [hl] at hg
        exact absurd hg (getLast?_cons_ne_none q l)
    simp [revert, hg, histLen, hnil]
  · have hne : (st.history.getD []).isEmpty = false := by
      rcases hl : st.history.getD [] with _ | ⟨q, l⟩
      · rw [hl] at hg
        simp [List.getLast?] at hg
      · simp
    have hlen : 0 < (st.history.getD []).length := by
      rcases hl : st.history.getD [] with _ | ⟨q, l⟩
      · rw [hl] at hg
        simp [List.getLast?] at hg
      · simp
    simp only [revert, hg, histLen, hne, if_false, Option.getD_some, List.length_dropLast]
    push_cast
    omega

/- ------------------------------------------------------------------ -/
/- Claim C6                                                            -/
/- ------------------------------------------------------------------ -/

/-- C6 counterexample: the balance `|history| = N − M` fails for a
sequence with `M ≤ N` when a rollback runs on an empty history.  From a
fresh instance, `[rollback, refresh]` has N = 1 successful refreshes and
M = 1 rollbacks, yet the final history has length 1, not 0: the early
rollback found nothing to pop. -/
theorem history_balance_fails_on_early_rollback :
    countRoll [Op.rollbackOp, Op.refreshOp ⟨[], []⟩ false] ≤
      countSucc freshInst [Op.rollbackOp, Op.refreshOp ⟨[], []⟩ false] ∧
    histLen (runOps freshInst [Op.rollbackOp, Op.refreshOp ⟨[], []⟩ false]) ≠
      countSucc freshInst [Op.rollbackOp, Op.refreshOp ⟨[], []⟩ false] -
        countRoll [Op.rollbackOp, Op.refreshOp ⟨[], []⟩ false] := by
  decide

/-- C6 (amended): each successful refresh pushes exactly one snapshot;
each argumentless rollback pops exactly one snapshot when the history is
non-empty and nothing otherwise; a failed refresh in the stale-pop case
also pops one.  Hence for any sequence of refreshes and rollbacks (no
purge), the final history length equals the number of successful
refreshes minus the number of pops that actually occurred — which is
N − M exactly when all M rollbacks hit a non-empty history and no failed
refresh takes the stale fallback. -/
theorem history_balance_pushes_minus_pops (ops : List Op) : ∀ st : Inst,
    (histLen (runOps st ops) : Int) =
      (histLen st : Int) + countSucc st ops - countPop st ops := by
  induction ops with
  | nil =>
    intro st
    simp [runOps, countSucc, countPop]
  | cons op rest ih =>
    intro st
    cases op with
    | refreshOp nc pf =>
      simp only [runOps, countSucc, countPop]
      rw [ih ((refresh st nc pf).2)]
      rw [histLen_refresh st nc pf]
      push_cast
      ring
    | rollbackOp =>
      simp only [runOps, countSucc, countPop]
      rw [ih ((revert st Option.none).2)]
      rw [histLen_revert_none st]
      push_cast
      ring

/- ------------------------------------------------------------------ -/
/- Supervised loop lemmas (claim C7)                                   -/
/- ------------------------------------------------------------------ -/

/-- Once `stopped` is set, the loop body is inert: it performs no step
invocation and leaves the state unchanged (for *any* step function). -/
theorem loopIter_frozen (g : Nat → Inst → StepOut × Inst) (j : Nat) (s : LoopState)
    (h : s.stopped = true) : loopIter g j s = s := by
  by_cases hb : s.broken = true
  · simp [loopIter, hb]
  · simp [loopIter, hb, h]

/-- A stopped state is a fixed point of any number of further loop
iterations, under any step function. -/
theorem iterLoop_frozen (g : Nat → Inst → StepOut × Inst) (j n : Nat) (s : LoopState)
    (h : s.stopped = true) : iterLoop g j n s = s := by
  induction n generalizing j with
  | zero => rfl
  | succ m ih =>
    show iterLoop g (j + 1) m (loopIter g j s) = s
    rw [loopIter_frozen g j s h]
    exact ih (j + 1)

/- ------------------------------------------------------------------ -/
/- Claim C7                                                            -/
/- ------------------------------------------------------------------ -/

/-- C7: if a step invocation fails while the snapshot history is empty
(the recovery `revert()` reports `False` — nothing to revert), the loop
sets `stopped` and never runs another step: the resulting state is a
fixed point of every further iteration under *every* step function (the
step function is never consulted again), and nothing inside the loop
ever clears `stopped` — leaving requires the external `restart`. -/
theorem loop_halts_on_unrevertable_step (f : Nat → Inst → StepOut × Inst) (i : Nat)
    (s : LoopState) (hr : s.stopped = false) (hb : s.broken = false)
    (he : (f i s.inst).1 = StepOut.err)
    (hh : (f i s.inst).2.history.getD [] = []) :
    (loopIter f i s).stopped = true ∧
    ∀ (g : Nat → Inst → StepOut × Inst) (j n : Nat),
      iterLoop g j n (loopIter f i s) = loopIter f i s := by
  have hfe : f i s.inst = (StepOut.err, (f i s.inst).2) := by
    rw [← he]
  have hstep : loopIter f i s =
      (⟨true, false, { (f i s.inst).2 with history := some [] }⟩ : LoopState) := by
    simp only [loopIter, hb, hr, Bool.false_eq_true, if_false]
    rw [hfe]
    simp [revert, hh]
  refine ⟨by rw [hstep], fun g j n => iterLoop_frozen g j n _ (by rw [hstep])⟩

/-- C7 witness: a constantly failing step on a fresh instance halts the
loop at the first iteration, and five further iterations (under the same
step function, starting at index 1) leave the state untouched. -/
theorem loop_halts_on_unrevertable_step_witness :
    (loopIter (fun _ inst => (StepOut.err, inst)) 0
      ⟨false, false, ⟨[], Option.none, Option.none⟩⟩).stopped = true ∧
    iterLoop (fun _ inst => (StepOut.err, inst)) 1 5
        (loopIter (fun _ inst => (StepOut.err, inst)) 0
          ⟨false, false, ⟨[], Option.none, Option.none⟩⟩) =
      loopIter (fun _ inst => (StepOut.err, inst)) 0
        ⟨false, false, ⟨[], Option.none, Option.none⟩⟩ :=
  ⟨(loop_halts_on_unrevertable_step (fun _ inst => (StepOut.err, inst)) 0
      ⟨false, false, ⟨[], Option.none, Option.none⟩⟩ rfl rfl rfl rfl).1,
   (loop_halts_on_unrevertable_step (fun _ inst => (StepOut.err, inst)) 0
      ⟨false, false, ⟨[], Option.none, Option.none⟩⟩ rfl rfl rfl rfl).2
     (fun _ inst => (StepOut.err, inst)) 1 5⟩
